import Mathlib

/-!
Shallow embedding of the rewrite-planning and history-substitution pipeline of
git-rewrite-commits (class GitCommitRewriter in src/index.ts), together with
proofs about the specification claims.  JavaScript strings are modelled as
Lean strings, with string length modelled as the UTF-16 code-unit count; the
anchored regular expressions of the quality scorer are modelled by explicit
matchers with the same existential (backtracking) semantics; the OpenAI call
is abstracted as a provider function returning none on any failure; git
commands are modelled through the data they return, with a per-commit flag for
a command failure while reading one commit's information.
-/

namespace GitRewrite

/-- The conventional-commit type vocabulary shared by the two regular
expressions of assessCommitQuality. -/
def commitTypes : List String :=
  ["feat", "fix", "docs", "style", "refactor", "test", "chore", "perf", "ci", "build", "revert"]

/-- JavaScript string length: the number of UTF-16 code units, so characters
above U+FFFF count twice. -/
def utf16Len (s : String) : Nat :=
  s.toList.foldl (fun n c => n + (if c.toNat < 65536 then 1 else 2)) 0

/-- First line of a message: everything before the first newline. -/
def firstLine (message : String) : String :=
  String.mk (message.toList.takeWhile (fun c => c != '\n'))

/-- Matching a literal string at the head of a character list; on success the
remaining characters are returned. -/
def afterLit (t : String) (s : List Char) : Option (List Char) :=
  if t.toList.isPrefixOf s then some (s.drop t.toList.length) else none

/-- One parenthesized non-empty scope group: an opening parenthesis, one or
more characters other than a closing parenthesis, then a closing parenthesis.
On success the remaining characters are returned. -/
def dropScope? (s : List Char) : Option (List Char) :=
  match s with
  | '(' :: rest =>
    match rest.dropWhile (fun c => c != ')') with
    | ')' :: rem => if rest.takeWhile (fun c => c != ')') = [] then none else some rem
    | _ => none
  | _ => none

/-- Continuation after an optional scope group: the pattern matches either with
the scope absent or with exactly one scope group consumed. -/
def withOptScope (k : List Char → Bool) (s : List Char) : Bool :=
  k s ||
    (match dropScope? s with
     | some r => k r
     | none => false)

/-- Tail of the conventional-format pattern: a colon, a space, and at least one
subject character that is not a newline. -/
def colonSubject (s : List Char) : Bool :=
  match s with
  | ':' :: ' ' :: c :: _ => c != '\n'
  | _ => false

/-- Tail of the present-tense pattern: a colon, a space, and a lower-case
ASCII letter. -/
def colonLower (s : List Char) : Bool :=
  match s with
  | ':' :: ' ' :: c :: _ => c.isLower
  | _ => false

/-- The conventional-format check of assessCommitQuality: the message starts
with a type from the vocabulary, an optional scope, a colon and a space, and a
non-empty subject. -/
def hasConventionalFormat (message : String) : Bool :=
  commitTypes.any (fun t =>
    match afterLit t message.toList with
    | some r => withOptScope colonSubject r
    | none => false)

/-- The present-tense check of assessCommitQuality: an optional type from the
vocabulary, an optional scope, then a colon, a space and a lower-case letter,
anchored at the start of the message. -/
def presentTenseCheck (message : String) : Bool :=
  withOptScope colonLower message.toList ||
    commitTypes.any (fun t =>
      match afterLit t message.toList with
      | some r => withOptScope colonLower r
      | none => false)

/-- Lower-casing as used by the generic-message comparison; the generic set is
pure ASCII, so ASCII lower-casing is extensionally adequate here. -/
def toLowerStr (s : String) : String :=
  String.mk (s.toList.map Char.toLower)

/-- The fixed generic-message set of assessCommitQuality. -/
def genericMessages : List String :=
  ["update", "fix", "change", "modify", "commit", "initial", "test", "wip"]

/-- A message is generic when its lower-casing equals one of the generic words,
the word followed by a period, or the word followed by the word commit. -/
def isGenericMessage (message : String) : Bool :=
  genericMessages.any (fun g =>
    toLowerStr message = g || toLowerStr message = g ++ "." ||
      toLowerStr message = g ++ " commit")

/-- Trailing-period check on a line. -/
def endsWithPeriod (s : String) : Bool :=
  s.toList.getLast? == some '.'

/-- JavaScript number-or with a default, as in the threshold expression of
assessCommitQuality: zero and the absent value both fall back to the
default. -/
def orDefault (m : Option Nat) (d : Nat) : Nat :=
  match m with
  | none => d
  | some n => if n = 0 then d else n

/-- Result record of assessCommitQuality. -/
structure QualityAssessment where
  score : Nat
  isWellFormed : Bool
  reason : String
deriving DecidableEq

/-- assessCommitQuality from src/index.ts: the five-part rubric, the threshold
comparison against minQualityScore with default 7, and the joined reason
string. -/
def assessCommitQuality (minQualityScore : Option Nat) (message : String) : QualityAssessment :=
  let fl := firstLine message
  let score :=
    (if hasConventionalFormat message then 4 else 0) +
    (if 10 ≤ utf16Len fl ∧ utf16Len fl ≤ 72 then 2 else 0) +
    (if isGenericMessage message then 0 else 2) +
    (if presentTenseCheck message then 1 else 0) +
    (if endsWithPeriod fl then 0 else 1)
  { score := score
    isWellFormed := decide (orDefault minQualityScore 7 ≤ score)
    reason := String.intercalate ", "
      ((if hasConventionalFormat message then ["follows conventional format"] else []) ++
       (if 10 ≤ utf16Len fl ∧ utf16Len fl ≤ 72 then ["appropriate length"]
        else if utf16Len fl < 10 then ["too short"] else ["too long"]) ++
       (if isGenericMessage message then ["too generic"] else ["descriptive"]) ++
       (if presentTenseCheck message then ["uses present tense"] else []) ++
       (if endsWithPeriod fl then [] else ["no trailing period"])) }

/-- Conventional-prefix stripping as the specification words it in claim C4:
remove an optional leading type with optional scope and a colon from the first
line, then any spaces.  This definition follows the words of the claim, not
the source, so the two can be compared. -/
def stripConvColon? (s : List Char) : Option (List Char) :=
  commitTypes.findSome? (fun t =>
    match afterLit t s with
    | some r =>
      (match r with
       | ':' :: rest => some rest
       | _ =>
         match dropScope? r with
         | some r2 =>
           (match r2 with
            | ':' :: rest => some rest
            | _ => none)
         | none => none)
    | none => none)

/-- The present-tense criterion exactly as claim C4 states it: the first line,
after stripping an optional conventional prefix, begins with a lower-case
letter. -/
def claimedPresentTense (message : String) : Bool :=
  let fl := (firstLine message).toList
  let stripped :=
    match stripConvColon? fl with
    | some r => r.dropWhile (fun c => c == ' ')
    | none => fl
  match stripped with
  | c :: _ => c.isLower
  | [] => false

/-- The shape of a scope group, used to characterize the matchers
declaratively. -/
def scopeShape (sc : List Char) : Prop :=
  ∃ inner, inner ≠ [] ∧ (∀ c ∈ inner, c ≠ ')') ∧ sc = '(' :: (inner ++ [')'])

/-- One commit as read through getCommitInfo: subject line (git log format %s),
full message (git log format %B, trimmed), changed files and diff.  The flag
readFails models a git command failure while reading this commit's information
inside the try block of the per-commit loop. -/
structure CommitEntry where
  hash : String
  subject : String
  fullMessage : String
  files : List String
  diff : String
  readFails : Bool
deriving DecidableEq

/-- Options record of GitCommitRewriter restricted to the fields the rewrite
flow reads; the constructor defaults are dryRun false, skipBackup false,
skipWellFormed true and minQualityScore 7. -/
structure RewriteOptions where
  dryRun : Bool
  skipBackup : Bool
  skipWellFormed : Bool
  minQualityScore : Option Nat
  maxCommits : Option Nat
deriving DecidableEq

/-- getCommits: the reversed rev-list of the full history, cut down to its last
maxCommits entries when that option is present and positive. -/
def getCommits {α : Type} (history : List α) (maxCommits : Option Nat) : List α :=
  match maxCommits with
  | some n => if 0 < n then history.drop (history.length - n) else history
  | none => history

/-- generateCommitMessage: the provider abstracts the OpenAI chat call and
returns none on any failure (network error, empty or malformed response), in
which case the old message is returned unchanged. -/
def generateCommitMessage (provider : CommitEntry → Option String) (c : CommitEntry)
    (oldMessage : String) : String :=
  match provider c with
  | some m => m
  | none => oldMessage

/-- State threaded through the per-commit loop: the hash-to-new-message map and
the two counters. -/
structure LoopState where
  messageMap : List (String × String)
  skippedCount : Nat
  improvedCount : Nat
deriving DecidableEq

/-- Body of the per-commit loop of rewrite: a read failure is caught and
records nothing; a well-formed message is skipped when skipWellFormed is set;
otherwise the generated message is recorded exactly when it differs from the
subject line.  The source binds the generated message to a local variable
newMessage; the pure call is inlined here. -/
def processCommit (opts : RewriteOptions) (provider : CommitEntry → Option String)
    (st : LoopState) (c : CommitEntry) : LoopState :=
  if c.readFails then st
  else if opts.skipWellFormed &&
      (assessCommitQuality opts.minQualityScore c.subject).isWellFormed then
    { st with skippedCount := st.skippedCount + 1 }
  else if generateCommitMessage provider c c.subject ≠ c.subject then
    { st with
      messageMap := st.messageMap ++ [(c.hash, generateCommitMessage provider c c.subject)]
      improvedCount := st.improvedCount + 1 }
  else st

/-- The whole per-commit loop, started from the empty map and zero counters. -/
def processCommits (opts : RewriteOptions) (provider : CommitEntry → Option String)
    (commits : List CommitEntry) : LoopState :=
  commits.foldl (processCommit opts provider) { messageMap := [], skippedCount := 0, improvedCount := 0 }

/-- Lookup in the message map with JavaScript object semantics: the most
recent assignment to a key wins. -/
def lookupMap (mm : List (String × String)) (k : String) : Option String :=
  (mm.reverse.find? (fun p => p.1 == k)).map Prod.snd

/-- Number of keys of the message map, as in Object.keys applied to it. -/
def changedCount (mm : List (String × String)) : Nat :=
  (mm.map Prod.fst).dedup.length

/-- The ordered plan written to the mapping file: an improved commit
contributes its generated message, every other commit its full original
message. -/
def orderedMessages (mm : List (String × String)) (commits : List CommitEntry) : List String :=
  commits.map (fun c =>
    match lookupMap mm c.hash with
    | some m => m
    | none => c.fullMessage)

/-- One decision of the rewrite plan in the specification's data model,
realized in the source by membership of the commit's hash in the message
map. -/
structure RewriteDecision where
  commitId : String
  finalMessage : String
  wasGenerated : Bool
deriving DecidableEq

/-- The rewrite plan read off a message map, index-aligned with the commit
list it is built from. -/
def decisionsOf (mm : List (String × String)) (commits : List CommitEntry) : List RewriteDecision :=
  commits.map (fun c =>
    match lookupMap mm c.hash with
    | some m => { commitId := c.hash, finalMessage := m, wasGenerated := true }
    | none => { commitId := c.hash, finalMessage := c.fullMessage, wasGenerated := false })

/-- The rewrite plan produced by running the per-commit loop over a commit
list. -/
def buildDecisions (opts : RewriteOptions) (provider : CommitEntry → Option String)
    (commits : List CommitEntry) : List RewriteDecision :=
  decisionsOf (processCommits opts provider commits).messageMap commits

/-- One invocation of the msg-filter script: emit the message at the current
counter when that entry exists and is non-empty, otherwise fall back to the
original message read from standard input. -/
def filterMessage (messages : List String) (counter : Nat) (oldMessage : String) : String :=
  match messages.get? counter with
  | some m => if m = "" then oldMessage else m
  | none => oldMessage

/-- git filter-branch with the msg-filter over HEAD: every commit of the full
history, oldest first, passes through the filter exactly once, with the shared
counter advancing by one each time.  Rewritten commit identifiers are not
modelled; commits are tracked by position. -/
def applyFilterBranch (messages : List String) : Nat → List CommitEntry → List CommitEntry
  | _, [] => []
  | counter, c :: rest =>
    { c with
      fullMessage := filterMessage messages counter c.fullMessage
      subject := firstLine (filterMessage messages counter c.fullMessage) } ::
    applyFilterBranch messages (counter + 1) rest

/-- How a run of rewrite ends. -/
inductive Outcome where
  | exitedUncommitted
  | nothingToDo
  | cancelledWarning
  | noChanges
  | dryRunDone
  | cancelledApply
  | rewriteFailed
  | rewriteSucceeded
deriving DecidableEq

/-- External circumstances of one run: the full repository history oldest
first, the working-tree state, the three interactive answers, and whether the
filter-branch command fails. -/
structure RunInput where
  history : List CommitEntry
  hasUncommitted : Bool
  confirmContinue : Bool
  confirmProceed : Bool
  confirmApply : Bool
  filterBranchFails : Bool
deriving DecidableEq

/-- Observable result of one run of rewrite: which run artifacts are left on
disk, which confirmation gates were consulted, whether the history was
rewritten, the final history, and the persisted plan. -/
structure RunResult where
  outcome : Outcome
  finalHistory : List CommitEntry
  plan : List String := []
  mappingFileExists : Bool := false
  counterFileExists : Bool := false
  filterScriptExists : Bool := false
  askedContinue : Bool := false
  askedProceed : Bool := false
  askedApply : Bool := false
  backupCreated : Bool := false
  historyRewritten : Bool := false
  skippedCount : Nat := 0
  improvedCount : Nat := 0
deriving DecidableEq

/-- The rewrite entry point of GitCommitRewriter, modelled from the check for
uncommitted changes onward (the repository check and branch lookup are assumed
to succeed, since their failures abort before anything modelled here).  The
mapping file is written after the loop on every path that reaches it; the
counter file and filter script are created inside rewriteHistory and all three
files are deleted in its finally block.  On a filter-branch failure the error
is re-raised after the cleanup; the history is modelled as unchanged there. -/
def rewrite (opts : RewriteOptions) (inp : RunInput)
    (provider : CommitEntry → Option String) : RunResult :=
  if inp.hasUncommitted && !inp.confirmContinue then
    { outcome := .exitedUncommitted, finalHistory := inp.history, askedContinue := true }
  else
    let commits := getCommits inp.history opts.maxCommits
    if commits.isEmpty then
      { outcome := .nothingToDo, finalHistory := inp.history,
        askedContinue := inp.hasUncommitted }
    else if !opts.dryRun && !inp.confirmProceed then
      { outcome := .cancelledWarning, finalHistory := inp.history,
        askedContinue := inp.hasUncommitted, askedProceed := true }
    else
      let backup := !opts.skipBackup && !opts.dryRun
      let st := processCommits opts provider commits
      let msgs := orderedMessages st.messageMap commits
      if changedCount st.messageMap = 0 then
        { outcome := .noChanges, finalHistory := inp.history, plan := msgs,
          mappingFileExists := true, askedContinue := inp.hasUncommitted,
          askedProceed := !opts.dryRun, backupCreated := backup,
          skippedCount := st.skippedCount, improvedCount := st.improvedCount }
      else if opts.dryRun then
        { outcome := .dryRunDone, finalHistory := inp.history, plan := msgs,
          mappingFileExists := true, askedContinue := inp.hasUncommitted,
          backupCreated := backup,
          skippedCount := st.skippedCount, improvedCount := st.improvedCount }
      else if !inp.confirmApply then
        { outcome := .cancelledApply, finalHistory := inp.history, plan := msgs,
          mappingFileExists := true, askedContinue := inp.hasUncommitted,
          askedProceed := true, askedApply := true, backupCreated := backup,
          skippedCount := st.skippedCount, improvedCount := st.improvedCount }
      else if inp.filterBranchFails then
        { outcome := .rewriteFailed, finalHistory := inp.history, plan := msgs,
          askedContinue := inp.hasUncommitted, askedProceed := true,
          askedApply := true, backupCreated := backup,
          skippedCount := st.skippedCount, improvedCount := st.improvedCount }
      else
        { outcome := .rewriteSucceeded,
          finalHistory := applyFilterBranch msgs 0 inp.history, plan := msgs,
          askedContinue := inp.hasUncommitted, askedProceed := true,
          askedApply := true, backupCreated := backup, historyRewritten := true,
          skippedCount := st.skippedCount, improvedCount := st.improvedCount }

/-- Default options of the constructor of GitCommitRewriter. -/
def defaultOpts : RewriteOptions :=
  { dryRun := false, skipBackup := false, skipWellFormed := true,
    minQualityScore := some 7, maxCommits := none }

/-- A commit entry whose git reads succeed, with no file or diff detail. -/
def mkCommit (h s f : String) : CommitEntry :=
  { hash := h, subject := s, fullMessage := f, files := [], diff := "", readFails := false }

/-- Options of a limited run: only the last two commits are to be processed. -/
def opts1 : RewriteOptions := { defaultOpts with maxCommits := some 2 }

/-- A three-commit repository with poor messages, a clean working tree and
every confirmation answered yes. -/
def inp1 : RunInput :=
  { history := [mkCommit "h1" "update" "update", mkCommit "h2" "wip" "wip",
                mkCommit "h3" "initial" "initial"],
    hasUncommitted := false, confirmContinue := true, confirmProceed := true,
    confirmApply := true, filterBranchFails := false }

/-- A provider that improves the last two commits of inp1. -/
def prov1 : CommitEntry → Option String := fun c =>
  if c.hash = "h2" then some "feat: add parser"
  else if c.hash = "h3" then some "feat: add tests" else none

/-- Default options with the dry-run flag set. -/
def opts6 : RewriteOptions := { defaultOpts with dryRun := true }

/-- A one-commit repository with a poor message, a clean working tree and
every confirmation answered yes. -/
def inp6 : RunInput :=
  { history := [mkCommit "h1" "update" "update"], hasUncommitted := false,
    confirmContinue := true, confirmProceed := true, confirmApply := true,
    filterBranchFails := false }

/-- A provider that always returns the same improved message. -/
def prov6 : CommitEntry → Option String := fun _ => some "feat: improve handling"

/-- A commit whose information cannot be read: the git command for it fails. -/
def c8a : CommitEntry := { mkCommit "h1" "update" "update" with readFails := true }

/-- A readable commit with a poor subject and a multi-line full message. -/
def c8b : CommitEntry := mkCommit "h2" "update 2" "update 2\n\nlong body"

/-- A provider that improves exactly the commit with hash h2. -/
def prov8 : CommitEntry → Option String := fun c =>
  if c.hash = "h2" then some "feat: improve handling" else none

/-- A provider that fails on every call. -/
def provNone : CommitEntry → Option String := fun _ => none

/-- A readable commit with subject update and a two-line body. -/
def cw1 : CommitEntry := mkCommit "h1" "update" "update\n\nbody one"

/-- A readable commit with subject wip and a two-line body. -/
def cw2 : CommitEntry := mkCommit "h2" "wip" "wip\n\nbody two"

/-- A readable commit whose subject is already well-formed (score 10) and whose
full message carries a body. -/
def c10s : CommitEntry :=
  mkCommit "h0" "feat(auth): add JWT refresh handling"
    "feat(auth): add JWT refresh handling\n\nlong body"

/-- A provider that proposes the same improvement for every commit, including
well-formed and unreadable ones. -/
def prov10 : CommitEntry → Option String := fun _ => some "feat: improve handling"

/-- Unfolding lemma for the score field of assessCommitQuality. -/
theorem assess_score_eq (q : Option Nat) (message : String) :
    (assessCommitQuality q message).score =
      (if hasConventionalFormat message then 4 else 0) +
      (if 10 ≤ utf16Len (firstLine message) ∧ utf16Len (firstLine message) ≤ 72 then 2 else 0) +
      (if isGenericMessage message then 0 else 2) +
      (if presentTenseCheck message then 1 else 0) +
      (if endsWithPeriod (firstLine message) then 0 else 1) := rfl

/-- Unfolding lemma for the isWellFormed field of assessCommitQuality. -/
theorem assess_isWellFormed_eq (q : Option Nat) (message : String) :
    (assessCommitQuality q message).isWellFormed =
      decide (orDefault q 7 ≤ (assessCommitQuality q message).score) := rfl

/-- C3: for every message the quality score lies in the interval from 0 to 10,
and for every threshold between 1 and 10 the isWellFormed flag equals the
comparison of the score against that threshold. -/
theorem claim_C3_assess_range (message : String) (t : Nat) (h1 : 1 ≤ t) (h2 : t ≤ 10) :
    (assessCommitQuality (some t) message).score ≤ 10 ∧
    ((assessCommitQuality (some t) message).isWellFormed = true ↔
      t ≤ (assessCommitQuality (some t) message).score) := by
  constructor
  · rw [assess_score_eq]
    split_ifs <;> omega
  · rw [assess_isWellFormed_eq]
    have ht : orDefault (some t) 7 = t := by
      show (if t = 0 then 7 else t) = t
      rw [if_neg]
      omega
    rw [ht, decide_eq_true_iff]

/-- Witness for C3 at the concrete message fix and threshold 7; the score is 1,
so the message is not well-formed there. -/
theorem claim_C3_assess_range_witness :
    (1 ≤ 7 ∧ 7 ≤ 10) ∧
    ((assessCommitQuality (some 7) "fix").score ≤ 10 ∧
      ((assessCommitQuality (some 7) "fix").isWellFormed = true ↔
        7 ≤ (assessCommitQuality (some 7) "fix").score)) ∧
    (assessCommitQuality (some 7) "fix").score = 1 ∧
    (assessCommitQuality (some 7) "fix").isWellFormed = false :=
  ⟨⟨by decide, by decide⟩, claim_C3_assess_range "fix" 7 (by decide) (by decide),
   by decide, by decide⟩

/-- C9: a configured minimum quality score of 0 behaves exactly like the absent
value, because of the JavaScript number-or fallback: the effective threshold is
7, and in particular a threshold of 0 does not make the message update
well-formed. -/
theorem claim_C9_zero_threshold (message : String) :
    assessCommitQuality (some 0) message = assessCommitQuality none message ∧
    ((assessCommitQuality (some 0) message).isWellFormed = true ↔
      7 ≤ (assessCommitQuality (some 0) message).score) ∧
    (assessCommitQuality (some 0) "update").isWellFormed = false := by
  refine ⟨rfl, ?_, by decide⟩
  rw [assess_isWellFormed_eq]
  rw [show orDefault (some 0) 7 = 7 from rfl, decide_eq_true_iff]

/-- C4 counterexample: the message add feature has no conventional prefix and
its first line begins with a lower-case letter, so the claim awards it the
present-tense point, but the source pattern requires a literal colon-space
separator and does not award the point: the score is 5, not 6. -/
theorem claim_C4_cex :
    claimedPresentTense "add feature" = true ∧
    presentTenseCheck "add feature" = false ∧
    (assessCommitQuality (some 7) "add feature").score = 5 := by decide

/-- C5: for every positive limit n, getCommits returns exactly the last
min n total entries of the oldest-first history, order preserved. -/
theorem claim_C5_enumerate_suffix {α : Type} (history : List α) (n i : Nat) (h : 0 < n) :
    (getCommits history (some n)).length = min n history.length ∧
    (getCommits history (some n)).get? i =
      history.get? (history.length - min n history.length + i) := by
  have hg : getCommits history (some n) = history.drop (history.length - n) := by
    show (if 0 < n then history.drop (history.length - n) else history) = _
    rw [if_pos h]
  rw [hg]
  constructor
  · rw [List.length_drop]
    omega
  · rw [List.get?_drop]
    congr 1
    omega

/-- Witness for C5: a three-commit history limited to 2 yields exactly the two
most recent commits, oldest of the two first. -/
theorem claim_C5_enumerate_suffix_witness :
    0 < 2 ∧
    ((getCommits ["h1", "h2", "h3"] (some 2)).length =
        min 2 (["h1", "h2", "h3"] : List String).length ∧
      (getCommits ["h1", "h2", "h3"] (some 2)).get? 0 =
        (["h1", "h2", "h3"] : List String).get?
          ((["h1", "h2", "h3"] : List String).length -
            min 2 (["h1", "h2", "h3"] : List String).length + 0)) ∧
    getCommits ["h1", "h2", "h3"] (some 2) = ["h2", "h3"] :=
  ⟨by decide, claim_C5_enumerate_suffix ["h1", "h2", "h3"] 2 0 (by decide), by decide⟩

/-- Literal matching succeeds exactly on the matching decompositions. -/
theorem afterLit_eq_some {t : String} {s r : List Char} :
    afterLit t s = some r ↔ s = t.toList ++ r := by
  constructor
  · intro hr
    unfold afterLit at hr
    split at hr
    · next h =>
      obtain ⟨u, hu⟩ := List.isPrefixOf_iff_prefix.mp h
      injection hr with hr'
      rw [← hr', ← hu, List.drop_left]
    · exact absurd hr (by simp)
  · intro hs
    subst hs
    unfold afterLit
    rw [if_pos (List.isPrefixOf_iff_prefix.mpr ⟨r, rfl⟩), List.drop_left]

/-- Scanning up to the first closing parenthesis of a list that is an
all-other-characters block followed by a closing parenthesis. -/
theorem scanParen (inner rem : List Char) (h : ∀ c ∈ inner, (c != ')') = true) :
    (inner ++ ')' :: rem).takeWhile (fun c => c != ')') = inner ∧
    (inner ++ ')' :: rem).dropWhile (fun c => c != ')') = ')' :: rem := by
  induction inner with
  | nil =>
    constructor <;> simp [List.takeWhile_cons, List.dropWhile_cons]
  | cons a l ih =>
    have ha : (a != ')') = true := h a (List.mem_cons_self a l)
    have ih' := ih (fun c hc => h c (List.mem_cons_of_mem a hc))
    constructor
    · rw [List.cons_append, List.takeWhile_cons, if_pos ha, ih'.1]
    · rw [List.cons_append, List.dropWhile_cons, if_pos ha, ih'.2]

/-- The scope matcher succeeds exactly on the scope-shaped decompositions. -/
theorem dropScope?_eq_some {s r : List Char} :
    dropScope? s = some r ↔
      ∃ inner, inner ≠ [] ∧ (∀ c ∈ inner, c ≠ ')') ∧ s = '(' :: (inner ++ ')' :: r) := by
  constructor
  · intro h
    unfold dropScope? at h
    split at h
    · next rest =>
      split at h
      · next rem hd =>
        split at h
        · exact absurd h (by simp)
        · next hne =>
          injection h with h'
          subst h'
          refine ⟨rest.takeWhile (fun c => c != ')'), hne, ?_, ?_⟩
          · intro c hc
            simpa using List.mem_takeWhile_imp hc
          · have hsplit := List.takeWhile_append_dropWhile (fun c => c != ')') rest
            rw [hd] at hsplit
            exact congrArg (fun l => '(' :: l) hsplit.symm
      · exact absurd h (by simp)
    · exact absurd h (by simp)
  · rintro ⟨inner, hne, hmem, rfl⟩
    have hs := scanParen inner r (fun c hc => by simpa using hmem c hc)
    show (match (inner ++ ')' :: r).dropWhile (fun c => c != ')') with
         | ')' :: rem =>
           if (inner ++ ')' :: r).takeWhile (fun c => c != ')') = [] then none else some rem
         | _ => none) = some r
    rw [hs.1, hs.2]
    simp [hne]

/-- The colon-lower tail matcher succeeds exactly on the matching lists. -/
theorem colonLower_eq_true {s : List Char} :
    colonLower s = true ↔ ∃ c rest, s = ':' :: ' ' :: c :: rest ∧ c.isLower = true := by
  constructor
  · intro h
    unfold colonLower at h
    split at h
    · next c rest => exact ⟨c, rest, rfl, h⟩
    · exact absurd h (by simp)
  · rintro ⟨c, rest, rfl, hc⟩
    exact hc

/-- The optional-scope continuation with the colon-lower tail succeeds exactly
on the declarative decompositions. -/
theorem withOptScope_colonLower {s : List Char} :
    withOptScope colonLower s = true ↔
      ∃ sc c rest, (sc = [] ∨ scopeShape sc) ∧ c.isLower = true ∧
        s = sc ++ ':' :: ' ' :: c :: rest := by
  unfold withOptScope
  rw [Bool.or_eq_true]
  constructor
  · rintro (h | h)
    · obtain ⟨c, rest, rfl, hc⟩ := colonLower_eq_true.mp h
      exact ⟨[], c, rest, Or.inl rfl, hc, rfl⟩
    · cases hd : dropScope? s with
      | none => rw [hd] at h; exact absurd h (by simp)
      | some r =>
        rw [hd] at h
        have h2 : colonLower r = true := h
        obtain ⟨c, rest, rfl, hc⟩ := colonLower_eq_true.mp h2
        obtain ⟨inner, hne, hmem, rfl⟩ := dropScope?_eq_some.mp hd
        refine ⟨'(' :: (inner ++ [')']), c, rest, Or.inr ⟨inner, hne, hmem, rfl⟩, hc, ?_⟩
        simp
  · rintro ⟨sc, c, rest, hor, hc, rfl⟩
    rcases hor with rfl | ⟨inner, hne, hmem, rfl⟩
    · exact Or.inl (colonLower_eq_true.mpr ⟨c, rest, rfl, hc⟩)
    · right
      have hd : dropScope? ('(' :: (inner ++ [')']) ++ ':' :: ' ' :: c :: rest) =
          some (':' :: ' ' :: c :: rest) := by
        apply dropScope?_eq_some.mpr
        exact ⟨inner, hne, hmem, by simp⟩
      rw [hd]
      exact colonLower_eq_true.mpr ⟨c, rest, rfl, hc⟩

/-- C4 amended: the present-tense point condition holds exactly when the
message begins with an optional conventional type, an optional non-empty
parenthesized scope, and then the literal colon-space separator followed by a
lower-case letter; a message lacking that separator never satisfies it, even
when it starts with a lower-case letter. -/
theorem claim_C4_amended (message : String) :
    presentTenseCheck message = true ↔
      ∃ ty sc c rest,
        (ty = [] ∨ ∃ t, t ∈ commitTypes ∧ ty = t.toList) ∧
        (sc = [] ∨ scopeShape sc) ∧ c.isLower = true ∧
        message.toList = ty ++ (sc ++ ':' :: ' ' :: c :: rest) := by
  unfold presentTenseCheck
  rw [Bool.or_eq_true]
  constructor
  · rintro (h | h)
    · obtain ⟨sc, c, rest, hsc, hc, hs⟩ := withOptScope_colonLower.mp h
      exact ⟨[], sc, c, rest, Or.inl rfl, hsc, hc, by simpa using hs⟩
    · rw [List.any_eq_true] at h
      obtain ⟨t, ht, h2⟩ := h
      cases ha : afterLit t message.toList with
      | none => rw [ha] at h2; exact absurd h2 (by simp)
      | some r =>
        rw [ha] at h2
        have h3 : withOptScope colonLower r = true := h2
        obtain ⟨sc, c, rest, hsc, hc, hr⟩ := withOptScope_colonLower.mp h3
        have hm := afterLit_eq_some.mp ha
        exact ⟨t.toList, sc, c, rest, Or.inr ⟨t, ht, rfl⟩, hsc, hc, by rw [hm, hr]⟩
  · rintro ⟨ty, sc, c, rest, hty, hsc, hc, hmsg⟩
    rcases hty with rfl | ⟨t, ht, rfl⟩
    · exact Or.inl (withOptScope_colonLower.mpr ⟨sc, c, rest, hsc, hc, by simpa using hmsg⟩)
    · right
      rw [List.any_eq_true]
      refine ⟨t, ht, ?_⟩
      have ha : afterLit t message.toList = some (sc ++ ':' :: ' ' :: c :: rest) :=
        afterLit_eq_some.mpr hmsg
      rw [ha]
      exact withOptScope_colonLower.mpr ⟨sc, c, rest, hsc, hc, rfl⟩

/-- Every entry of the message map produced by the per-commit loop comes from a
commit whose reads succeeded, that was not skipped as well-formed, and whose
generated message differs from its subject line. -/
theorem foldl_messageMap_mem (opts : RewriteOptions) (provider : CommitEntry → Option String)
    (commits : List CommitEntry) :
    ∀ (s : LoopState) (p : String × String),
      p ∈ (commits.foldl (processCommit opts provider) s).messageMap →
      p ∈ s.messageMap ∨
        ∃ c, c ∈ commits ∧ c.hash = p.1 ∧ c.readFails = false ∧
          (opts.skipWellFormed &&
            (assessCommitQuality opts.minQualityScore c.subject).isWellFormed) = false ∧
          p.2 = generateCommitMessage provider c c.subject ∧ p.2 ≠ c.subject := by
  induction commits with
  | nil => exact fun s p hp => Or.inl hp
  | cons c rest ih =>
    intro s p hp
    rw [List.foldl_cons] at hp
    rcases ih (processCommit opts provider s c) p hp with h | ⟨c', hc', hh, hrf, hsk, hgen, hne⟩
    · unfold processCommit at h
      split at h
      · exact Or.inl h
      · next hrf =>
        split at h
        · exact Or.inl h
        · next hsk =>
          split at h
          · next hne2 =>
            rw [List.mem_append] at h
            rcases h with h | h
            · exact Or.inl h
            · rw [List.mem_singleton] at h
              subst h
              exact Or.inr ⟨c, List.mem_cons_self c rest, rfl, by simpa using hrf,
                by simpa using hsk, rfl, hne2⟩
          · exact Or.inl h
    · exact Or.inr ⟨c', List.mem_cons_of_mem c hc', hh, hrf, hsk, hgen, hne⟩

/-- The per-commit loop only ever appends to the message map, so entries are
preserved by the remaining iterations. -/
theorem foldl_messageMap_mono (opts : RewriteOptions) (provider : CommitEntry → Option String)
    (commits : List CommitEntry) :
    ∀ (s : LoopState) (p : String × String),
      p ∈ s.messageMap → p ∈ (commits.foldl (processCommit opts provider) s).messageMap := by
  induction commits with
  | nil => exact fun s p hp => hp
  | cons c rest ih =>
    intro s p hp
    rw [List.foldl_cons]
    apply ih
    unfold processCommit
    split
    · exact hp
    · split
      · exact hp
      · split
        · exact List.mem_append_left _ hp
        · exact hp

/-- A commit that is readable, not skipped as well-formed, and whose generated
message differs from its subject contributes its entry to the message map. -/
theorem foldl_messageMap_improved_mem (opts : RewriteOptions)
    (provider : CommitEntry → Option String) (commits : List CommitEntry) :
    ∀ (s : LoopState) (c : CommitEntry), c ∈ commits →
      c.readFails = false →
      (opts.skipWellFormed &&
        (assessCommitQuality opts.minQualityScore c.subject).isWellFormed) = false →
      generateCommitMessage provider c c.subject ≠ c.subject →
      (c.hash, generateCommitMessage provider c c.subject) ∈
        (commits.foldl (processCommit opts provider) s).messageMap := by
  induction commits with
  | nil => exact fun s c hmem => absurd hmem (by simp)
  | cons hd rest ih =>
    intro s c hmem hrf hsk hne
    rw [List.foldl_cons]
    rcases List.mem_cons.mp hmem with rfl | hmem'
    · apply foldl_messageMap_mono opts provider rest (processCommit opts provider s c)
      unfold processCommit
      rw [if_neg (by simp [hrf]), if_neg (by simp [hsk]), if_pos hne]
      exact List.mem_append_right _ (List.mem_singleton.mpr rfl)
    · exact ih (processCommit opts provider s hd) c hmem' hrf hsk hne

/-- When the provider fails on every call, the per-commit loop records no new
message. -/
theorem processCommits_messageMap_nil (opts : RewriteOptions)
    (provider : CommitEntry → Option String) (commits : List CommitEntry)
    (h : ∀ c, provider c = none) :
    (processCommits opts provider commits).messageMap = [] := by
  suffices h2 : ∀ s : LoopState,
      (commits.foldl (processCommit opts provider) s).messageMap = s.messageMap by
    exact h2 { messageMap := [], skippedCount := 0, improvedCount := 0 }
  induction commits with
  | nil => exact fun s => rfl
  | cons c rest ih =>
    intro s
    rw [List.foldl_cons, ih]
    unfold processCommit
    split
    · rfl
    · split
      · rfl
      · have hgen : generateCommitMessage provider c c.subject = c.subject := by
          unfold generateCommitMessage
          rw [h c]
        rw [if_neg (by rw [hgen]; exact fun hx => hx rfl)]

/-- C2: when the provider fails on every call, every enumerated commit's
decision keeps the full original message with wasGenerated false, and the run
still produces a decision for every commit. -/
theorem claim_C2_provider_fallback (opts : RewriteOptions)
    (provider : CommitEntry → Option String) (commits : List CommitEntry)
    (h : ∀ c, provider c = none) :
    buildDecisions opts provider commits =
      commits.map (fun c =>
        { commitId := c.hash, finalMessage := c.fullMessage, wasGenerated := false }) := by
  unfold buildDecisions
  rw [processCommits_messageMap_nil opts provider commits h]
  rfl

/-- Witness for C2: an always-failing provider over two commits yields exactly
the original full messages, none generated. -/
theorem claim_C2_provider_fallback_witness :
    buildDecisions defaultOpts provNone [cw1, cw2] =
      [cw1, cw2].map (fun c =>
        { commitId := c.hash, finalMessage := c.fullMessage, wasGenerated := false }) ∧
    buildDecisions defaultOpts provNone [cw1, cw2] =
      [{ commitId := "h1", finalMessage := "update\n\nbody one", wasGenerated := false },
       { commitId := "h2", finalMessage := "wip\n\nbody two", wasGenerated := false }] :=
  ⟨claim_C2_provider_fallback defaultOpts provNone [cw1, cw2] (fun _ => rfl), by decide⟩

/-- Indexing the decision list of a message map at a commit's position. -/
theorem decisionsOf_get? (mm : List (String × String)) (commits : List CommitEntry)
    (i : Nat) (c : CommitEntry) (hc : commits.get? i = some c) :
    (decisionsOf mm commits).get? i =
      some (match lookupMap mm c.hash with
            | some m => { commitId := c.hash, finalMessage := m, wasGenerated := true }
            | none => { commitId := c.hash, finalMessage := c.fullMessage,
                        wasGenerated := false }) := by
  unfold decisionsOf
  rw [List.get?_map, hc, Option.map_some']

/-- C8 counterexample: a git command failure while reading the first commit's
information is absorbed by the catch in the per-commit loop, and the run
continues: the second commit is still processed and improved, and the plan
still covers both commits, instead of the failure being fatal. -/
theorem claim_C8_cex :
    c8a.readFails = true ∧
    (buildDecisions defaultOpts prov8 [c8a, c8b]).length = 2 ∧
    (buildDecisions defaultOpts prov8 [c8a, c8b]).get? 1 =
      some { commitId := "h2", finalMessage := "feat: improve handling",
             wasGenerated := true } := by decide

/-- C8 amended: a command failure while reading one commit's information during
the per-commit pass is caught and reported, that commit keeps its original
message untouched in the plan, and the run continues, still producing one
decision per enumerated commit. -/
theorem claim_C8_amended (opts : RewriteOptions) (provider : CommitEntry → Option String)
    (commits : List CommitEntry) (i : Nat) (c : CommitEntry)
    (hnd : (commits.map CommitEntry.hash).Nodup)
    (hc : commits.get? i = some c) (hf : c.readFails = true) :
    (buildDecisions opts provider commits).length = commits.length ∧
    (buildDecisions opts provider commits).get? i =
      some { commitId := c.hash, finalMessage := c.fullMessage, wasGenerated := false } := by
  have hnone : lookupMap (processCommits opts provider commits).messageMap c.hash = none := by
    unfold lookupMap
    rw [Option.map_eq_none', List.find?_eq_none]
    intro p hp
    rw [List.mem_reverse] at hp
    have hsrc := foldl_messageMap_mem opts provider commits
      { messageMap := [], skippedCount := 0, improvedCount := 0 } p hp
    rcases hsrc with h0 | ⟨c', hc', hh, hrf, _, _, _⟩
    · exact absurd h0 (by simp)
    · intro hbeq
      have hbeq' : p.1 = c.hash := by simpa using hbeq
      have hcc : c' = c := by
        apply List.inj_on_of_nodup_map hnd hc' (List.get?_mem hc)
        rw [hh]
        exact hbeq'
      rw [hcc, hf] at hrf
      exact absurd hrf (by simp)
  constructor
  · unfold buildDecisions decisionsOf
    rw [List.length_map]
  · unfold buildDecisions
    rw [decisionsOf_get? _ _ _ _ hc, hnone]

/-- Witness for C8 amended at a concrete two-commit input whose first commit
fails to read. -/
theorem claim_C8_amended_witness :
    ((([c8a, c8b] : List CommitEntry).map CommitEntry.hash).Nodup ∧
      ([c8a, c8b] : List CommitEntry).get? 0 = some c8a ∧ c8a.readFails = true) ∧
    ((buildDecisions defaultOpts prov8 [c8a, c8b]).length =
        ([c8a, c8b] : List CommitEntry).length ∧
      (buildDecisions defaultOpts prov8 [c8a, c8b]).get? 0 =
        some { commitId := c8a.hash, finalMessage := c8a.fullMessage,
               wasGenerated := false }) :=
  ⟨⟨by decide, by decide, by decide⟩,
   claim_C8_amended defaultOpts prov8 [c8a, c8b] 0 c8a (by decide) (by decide) (by decide)⟩

/-- C10: the skip decision and the improved-versus-kept comparison are
computed from the commit's subject line only, and the plan preserves or
replaces the full message accordingly: a commit that errors while being read,
or is skipped as well-formed, or whose generated message equals its subject
line, keeps its full original message, body included, with wasGenerated false;
a readable, non-skipped commit whose generated message differs from its
subject has its entire message replaced by that single generated message (by
definition of generateCommitMessage, the provider's returned message). -/
theorem claim_C10_subject_vs_body (opts : RewriteOptions)
    (provider : CommitEntry → Option String) (commits : List CommitEntry)
    (i : Nat) (c : CommitEntry)
    (hnd : (commits.map CommitEntry.hash).Nodup)
    (hc : commits.get? i = some c) :
    ((c.readFails = true ∨
        (opts.skipWellFormed &&
          (assessCommitQuality opts.minQualityScore c.subject).isWellFormed) = true ∨
        generateCommitMessage provider c c.subject = c.subject) →
      (buildDecisions opts provider commits).get? i =
        some { commitId := c.hash, finalMessage := c.fullMessage, wasGenerated := false }) ∧
    ((c.readFails = false ∧
        (opts.skipWellFormed &&
          (assessCommitQuality opts.minQualityScore c.subject).isWellFormed) = false ∧
        generateCommitMessage provider c c.subject ≠ c.subject) →
      (buildDecisions opts provider commits).get? i =
        some { commitId := c.hash,
               finalMessage := generateCommitMessage provider c c.subject,
               wasGenerated := true }) := by
  constructor
  · intro hor
    unfold buildDecisions
    rw [decisionsOf_get? _ _ _ _ hc]
    have hnone : lookupMap (processCommits opts provider commits).messageMap c.hash = none := by
      unfold lookupMap
      rw [Option.map_eq_none', List.find?_eq_none]
      intro p hp
      rw [List.mem_reverse] at hp
      have hsrc := foldl_messageMap_mem opts provider commits
        { messageMap := [], skippedCount := 0, improvedCount := 0 } p hp
      rcases hsrc with h0 | ⟨c', hc', hh, hrf', hsk', hgen', hne'⟩
      · exact absurd h0 (by simp)
      · intro hbeq
        have hbeq' : p.1 = c.hash := by simpa using hbeq
        have hcc : c' = c := by
          apply List.inj_on_of_nodup_map hnd hc' (List.get?_mem hc)
          rw [hh]
          exact hbeq'
        subst hcc
        rcases hor with h | h | h
        · rw [h] at hrf'
          exact absurd hrf' (by simp)
        · rw [h] at hsk'
          exact absurd hsk' (by simp)
        · exact hne' (hgen'.trans h)
    rw [hnone]
  · rintro ⟨hrf, hsk, hne⟩
    unfold buildDecisions
    rw [decisionsOf_get? _ _ _ _ hc]
    have hmemMap : (c.hash, generateCommitMessage provider c c.subject) ∈
        (processCommits opts provider commits).messageMap :=
      foldl_messageMap_improved_mem opts provider commits
        { messageMap := [], skippedCount := 0, improvedCount := 0 } c
        (List.get?_mem hc) hrf hsk hne
    have hsome : lookupMap (processCommits opts provider commits).messageMap c.hash =
        some (generateCommitMessage provider c c.subject) := by
      unfold lookupMap
      cases hfind : (processCommits opts provider commits).messageMap.reverse.find?
          (fun p => p.1 == c.hash) with
      | none =>
        rw [List.find?_eq_none] at hfind
        have hmm := hfind _ (List.mem_reverse.mpr hmemMap)
        have hx : ((c.hash, generateCommitMessage provider c c.subject).1 == c.hash) = true := by
          simp
        exact absurd hx hmm
      | some p =>
        have hp1 : p.1 = c.hash := by simpa using List.find?_some hfind
        have hpm := List.mem_of_find?_eq_some hfind
        rw [List.mem_reverse] at hpm
        have hsrc := foldl_messageMap_mem opts provider commits
          { messageMap := [], skippedCount := 0, improvedCount := 0 } p hpm
        rcases hsrc with h0 | ⟨c', hc', hh, _, _, hgen0, _⟩
        · exact absurd h0 (by simp)
        · have hgen : p.2 = generateCommitMessage provider c' c'.subject := hgen0
          have hcc : c' = c := by
            apply List.inj_on_of_nodup_map hnd hc' (List.get?_mem hc)
            rw [hh]
            exact hp1
          subst hcc
          rw [Option.map_some']
          exact congrArg some hgen
    rw [hsome]

/-- Witness for C10 at a concrete three-commit input under a provider that
proposes an improvement for every commit: the skipped well-formed commit and
the unreadable commit both keep their full original messages, while the poor
readable commit is replaced by the single generated message. -/
theorem claim_C10_subject_vs_body_witness :
    ((([c10s, c8a, c8b] : List CommitEntry).map CommitEntry.hash).Nodup ∧
      ([c10s, c8a, c8b] : List CommitEntry).get? 0 = some c10s ∧
      ([c10s, c8a, c8b] : List CommitEntry).get? 1 = some c8a ∧
      ([c10s, c8a, c8b] : List CommitEntry).get? 2 = some c8b) ∧
    (buildDecisions defaultOpts prov10 [c10s, c8a, c8b]).get? 0 =
      some { commitId := c10s.hash, finalMessage := c10s.fullMessage,
             wasGenerated := false } ∧
    (buildDecisions defaultOpts prov10 [c10s, c8a, c8b]).get? 1 =
      some { commitId := c8a.hash, finalMessage := c8a.fullMessage,
             wasGenerated := false } ∧
    (buildDecisions defaultOpts prov10 [c10s, c8a, c8b]).get? 2 =
      some { commitId := c8b.hash,
             finalMessage := generateCommitMessage prov10 c8b c8b.subject,
             wasGenerated := true } ∧
    buildDecisions defaultOpts prov10 [c10s, c8a, c8b] =
      [{ commitId := "h0",
         finalMessage := "feat(auth): add JWT refresh handling\n\nlong body",
         wasGenerated := false },
       { commitId := "h1", finalMessage := "update", wasGenerated := false },
       { commitId := "h2", finalMessage := "feat: improve handling",
         wasGenerated := true }] :=
  ⟨⟨by decide, by decide, by decide, by decide⟩,
   (claim_C10_subject_vs_body defaultOpts prov10 [c10s, c8a, c8b] 0 c10s
     (by decide) (by decide)).1 (Or.inr (Or.inl (by decide))),
   (claim_C10_subject_vs_body defaultOpts prov10 [c10s, c8a, c8b] 1 c8a
     (by decide) (by decide)).1 (Or.inl (by decide)),
   (claim_C10_subject_vs_body defaultOpts prov10 [c10s, c8a, c8b] 2 c8b
     (by decide) (by decide)).2 ⟨by decide, by decide, by decide⟩,
   by decide⟩

/-- C7: in dry-run mode no destructive step is taken on any path: the history
is returned unchanged, identifiers and messages included, the
destructive-rewrite and final-application confirmation gates are never
consulted, and no backup branch is created. -/
theorem claim_C7_dry_run (opts : RewriteOptions) (inp : RunInput)
    (provider : CommitEntry → Option String) (h : opts.dryRun = true) :
    (rewrite opts inp provider).historyRewritten = false ∧
    (rewrite opts inp provider).finalHistory = inp.history ∧
    (rewrite opts inp provider).askedProceed = false ∧
    (rewrite opts inp provider).askedApply = false ∧
    (rewrite opts inp provider).backupCreated = false := by
  by_cases h1 : (inp.hasUncommitted && !inp.confirmContinue) = true
  · simp [rewrite, h1]
  · by_cases h2 : (getCommits inp.history opts.maxCommits).isEmpty = true
    · simp [rewrite, h1, h2]
    · by_cases h3 : changedCount (processCommits opts provider
          (getCommits inp.history opts.maxCommits)).messageMap = 0
      · simp [rewrite, h1, h2, h3, h]
      · simp [rewrite, h1, h2, h3, h]

/-- Witness for C7: a concrete dry run over a one-commit history with an
improvable message reports a non-empty plan yet changes nothing. -/
theorem claim_C7_dry_run_witness :
    opts6.dryRun = true ∧
    ((rewrite opts6 inp6 prov6).historyRewritten = false ∧
     (rewrite opts6 inp6 prov6).finalHistory = inp6.history ∧
     (rewrite opts6 inp6 prov6).askedProceed = false ∧
     (rewrite opts6 inp6 prov6).askedApply = false ∧
     (rewrite opts6 inp6 prov6).backupCreated = false) ∧
    (rewrite opts6 inp6 prov6).plan = ["feat: improve handling"] :=
  ⟨rfl, claim_C7_dry_run opts6 inp6 prov6 rfl, by decide⟩

/-- File invariant of the modelled run: the counter file and the filter script
never survive a run, and the mapping file survives exactly the three early
completion paths after it has been written. -/
theorem rewrite_files_invariant (opts : RewriteOptions) (inp : RunInput)
    (provider : CommitEntry → Option String) :
    ((rewrite opts inp provider).counterFileExists = false ∧
     (rewrite opts inp provider).filterScriptExists = false) ∧
    ((rewrite opts inp provider).mappingFileExists = true ↔
      ((rewrite opts inp provider).outcome = .noChanges ∨
       (rewrite opts inp provider).outcome = .dryRunDone ∨
       (rewrite opts inp provider).outcome = .cancelledApply)) := by
  simp only [rewrite]
  split_ifs <;> simp

/-- C6 counterexample: a dry run over a one-commit history with an improvable
message completes with the persisted plan file still present, so the run
artifacts are not deleted on every completion path. -/
theorem claim_C6_cex :
    (rewrite opts6 inp6 prov6).outcome = .dryRunDone ∧
    (rewrite opts6 inp6 prov6).mappingFileExists = true ∧
    (rewrite opts6 inp6 prov6).improvedCount = 1 := by decide

/-- C6 amended: whenever the run reaches the application step, on success and
on failure alike, the persisted plan file, the counter file and the filter
script are all deleted; runs that end in dry-run mode, in a declined final
confirmation or with no changed message leave the already-written plan file in
place, and the counter file never survives any run. -/
theorem claim_C6_amended (opts : RewriteOptions) (inp : RunInput)
    (provider : CommitEntry → Option String)
    (h : (rewrite opts inp provider).outcome = .rewriteSucceeded ∨
         (rewrite opts inp provider).outcome = .rewriteFailed) :
    (rewrite opts inp provider).mappingFileExists = false ∧
    (rewrite opts inp provider).counterFileExists = false ∧
    (rewrite opts inp provider).filterScriptExists = false := by
  obtain ⟨⟨hcf, hfs⟩, hm⟩ := rewrite_files_invariant opts inp provider
  refine ⟨?_, hcf, hfs⟩
  cases hmf : (rewrite opts inp provider).mappingFileExists
  · rfl
  · exfalso
    have h3 := hm.mp hmf
    rcases h with h | h <;> rcases h3 with h3 | h3 | h3 <;> rw [h] at h3 <;> exact absurd h3 (by simp)

/-- Witness for C6 amended: a concrete run that reaches the application step
and succeeds leaves none of the three artifacts behind. -/
theorem claim_C6_amended_witness :
    ((rewrite defaultOpts inp6 prov6).outcome = .rewriteSucceeded ∨
      (rewrite defaultOpts inp6 prov6).outcome = .rewriteFailed) ∧
    ((rewrite defaultOpts inp6 prov6).mappingFileExists = false ∧
     (rewrite defaultOpts inp6 prov6).counterFileExists = false ∧
     (rewrite defaultOpts inp6 prov6).filterScriptExists = false) :=
  ⟨Or.inl (by decide), claim_C6_amended defaultOpts inp6 prov6 (Or.inl (by decide))⟩

/-- C1 evaluated at the failing input: a three-commit history limited to its
last two commits.  The enumeration yields h2 and h3 and the plan entries are
built for them in that order, but the filter runs over the full history, so h1
receives the message planned for h2, h2 receives the message planned for h3,
and h3 keeps its original message: the plan entries are not applied to the
commits they were built for. -/
theorem claim_C1_misassignment :
    (getCommits inp1.history opts1.maxCommits).map CommitEntry.hash = ["h2", "h3"] ∧
    (rewrite opts1 inp1 prov1).outcome = .rewriteSucceeded ∧
    (rewrite opts1 inp1 prov1).plan = ["feat: add parser", "feat: add tests"] ∧
    (rewrite opts1 inp1 prov1).finalHistory.map CommitEntry.hash = ["h1", "h2", "h3"] ∧
    (rewrite opts1 inp1 prov1).finalHistory.map CommitEntry.fullMessage =
      ["feat: add parser", "feat: add tests", "initial"] := by decide

end GitRewrite
